import Mathlib

/-!
Shallow embedding of the RSSFlow `ai-bridge` service (`src/ai-bridge/app.py`):
per-entry fingerprinting, cache-aside lookup/write, the translation call with
its degraded-failure policy, and the concurrent dispatch that reassembles
results in input order.  Python strings are modelled as Lean `String`
(sequences of code points); `str.split`, `str.strip`, `str.replace` and
slicing are given explicit executable models below, and `hashlib.md5` is
implemented in full over the UTF-8 bytes of the input.
-/

/-- Fuelled worker for the model of Python `str.split(sep)`: scan left to
right, cut at each occurrence of the separator.  The fuel only serves
structural recursion; it is never exhausted when it starts at the list
length. -/
def pySplitF (sep : List Char) : Nat → List Char → List (List Char)
  | _, [] => [[]]
  | 0, s => [s]
  | fuel + 1, c :: rest =>
    if sep ≠ [] ∧ sep.isPrefixOf (c :: rest) then
      [] :: pySplitF sep fuel (List.drop (sep.length - 1) rest)
    else
      match pySplitF sep fuel rest with
      | [] => [[c]]
      | hd :: tl => (c :: hd) :: tl

/-- Model of Python `str.split(sep)` for a non-empty separator, over
code-point lists. -/
def pySplit (sep s : List Char) : List (List Char) := pySplitF sep s.length s

/-- `str.split` lifted to `String`. -/
def pySplitS (sep s : String) : List String :=
  (pySplit sep.data s.data).map String.mk

/-- Model of Python `str.strip()`: drop leading and trailing whitespace. -/
def pyStripS (s : String) : String :=
  ⟨((s.data.dropWhile Char.isWhitespace).reverse.dropWhile Char.isWhitespace).reverse⟩

/-- Model of Python `str.replace(old, new)` for non-empty `old`: replace every
left-to-right occurrence (`new.join(s.split(old))`). -/
def pyReplaceS (old new s : String) : String :=
  ⟨List.intercalate new.data (pySplit old.data s.data)⟩

/-- Model of Python slicing `s[:n]`: the first `n` code points. -/
def pyTakeS (s : String) (n : Nat) : String := ⟨s.data.take n⟩

/-- UTF-8 encoding of one code point (model of Python `str.encode()`). -/
def utf8Bytes (c : Char) : List Nat :=
  let n := c.toNat
  if n < 128 then [n]
  else if n < 2048 then [192 + n / 64, 128 + n % 64]
  else if n < 65536 then [224 + n / 4096, 128 + n / 64 % 64, 128 + n % 64]
  else [240 + n / 262144, 128 + n / 4096 % 64, 128 + n / 64 % 64, 128 + n % 64]

/-- UTF-8 bytes of a string. -/
def strBytes (s : String) : List Nat := (s.data.map utf8Bytes).flatten

/-! ### MD5 (`hashlib.md5`), over byte lists, words as `Nat` mod 2^32 -/

/-- The 64 MD5 sine-table constants `K[i]`. -/
def md5K : List Nat :=
  [0xd76aa478, 0xe8c7b756, 0x242070db, 0xc1bdceee,
   0xf57c0faf, 0x4787c62a, 0xa8304613, 0xfd469501,
   0x698098d8, 0x8b44f7af, 0xffff5bb1, 0x895cd7be,
   0x6b901122, 0xfd987193, 0xa679438e, 0x49b40821,
   0xf61e2562, 0xc040b340, 0x265e5a51, 0xe9b6c7aa,
   0xd62f105d, 0x02441453, 0xd8a1e681, 0xe7d3fbc8,
   0x21e1cde6, 0xc33707d6, 0xf4d50d87, 0x455a14ed,
   0xa9e3e905, 0xfcefa3f8, 0x676f02d9, 0x8d2a4c8a,
   0xfffa3942, 0x8771f681, 0x6d9d6122, 0xfde5380c,
   0xa4beea44, 0x4bdecfa9, 0xf6bb4b60, 0xbebfbc70,
   0x289b7ec6, 0xeaa127fa, 0xd4ef3085, 0x04881d05,
   0xd9d4d039, 0xe6db99e5, 0x1fa27cf8, 0xc4ac5665,
   0xf4292244, 0x432aff97, 0xab9423a7, 0xfc93a039,
   0x655b59c3, 0x8f0ccc92, 0xffeff47d, 0x85845dd1,
   0x6fa87e4f, 0xfe2ce6e0, 0xa3014314, 0x4e0811a1,
   0xf7537e82, 0xbd3af235, 0x2ad7d2bb, 0xeb86d391]

/-- The 64 MD5 per-round left-rotation amounts `S[i]`. -/
def md5S : List Nat :=
  [7, 12, 17, 22, 7, 12, 17, 22, 7, 12, 17, 22, 7, 12, 17, 22,
   5, 9, 14, 20, 5, 9, 14, 20, 5, 9, 14, 20, 5, 9, 14, 20,
   4, 11, 16, 23, 4, 11, 16, 23, 4, 11, 16, 23, 4, 11, 16, 23,
   6, 10, 15, 21, 6, 10, 15, 21, 6, 10, 15, 21, 6, 10, 15, 21]

/-- Addition mod 2^32. -/
def madd (a b : Nat) : Nat := (a + b) % 4294967296

/-- Left rotation of a 32-bit word by `s` places. -/
def rotl32 (x s : Nat) : Nat := (x * 2 ^ s) % 4294967296 + x / 2 ^ (32 - s)

/-- The MD5 round mixing function for round `i`. -/
def md5F (i b c d : Nat) : Nat :=
  if i < 16 then Nat.lor (Nat.land b c) (Nat.land (Nat.xor b 4294967295) d)
  else if i < 32 then Nat.lor (Nat.land d b) (Nat.land (Nat.xor d 4294967295) c)
  else if i < 48 then Nat.xor b (Nat.xor c d)
  else Nat.xor c (Nat.lor b (Nat.xor d 4294967295))

/-- The MD5 message-word index for round `i`. -/
def md5G (i : Nat) : Nat :=
  if i < 16 then i
  else if i < 32 then (5 * i + 1) % 16
  else if i < 48 then (3 * i + 5) % 16
  else (7 * i) % 16

/-- One MD5 round on state `(a, b, c, d)` with message words `M`. -/
def md5Step (M : List Nat) (st : Nat × Nat × Nat × Nat) (i : Nat) :
    Nat × Nat × Nat × Nat :=
  let a := st.1
  let b := st.2.1
  let c := st.2.2.1
  let d := st.2.2.2
  let tmp := madd (madd (madd a (md5F i b c d)) (md5K.getD i 0)) (M.getD (md5G i) 0)
  (d, madd b (rotl32 tmp (md5S.getD i 0)), b, c)

/-- Process one 16-word chunk, adding the round output into the running state. -/
def md5Chunk (st : Nat × Nat × Nat × Nat) (M : List Nat) : Nat × Nat × Nat × Nat :=
  let r := (List.range 64).foldl (md5Step M) st
  (madd st.1 r.1, madd st.2.1 r.2.1, madd st.2.2.1 r.2.2.1, madd st.2.2.2 r.2.2.2)

/-- The `count` least-significant bytes of `n`, little-endian. -/
def toLEBytes (n count : Nat) : List Nat :=
  (List.range count).map fun i => n / 2 ^ (8 * i) % 256

/-- MD5 padding: `0x80`, zeros to 56 mod 64, then the 64-bit LE bit length. -/
def md5Pad (msg : List Nat) : List Nat :=
  let len := msg.length
  let padLen := (56 + 64 - (len + 1) % 64) % 64
  msg ++ [128] ++ List.replicate padLen 0 ++ toLEBytes (len * 8) 8

/-- Group a byte list into 32-bit little-endian words. -/
def bytesToWords : List Nat → List Nat
  | b0 :: b1 :: b2 :: b3 :: rest =>
    (b0 + 256 * b1 + 65536 * b2 + 16777216 * b3) :: bytesToWords rest
  | _ => []

/-- Fuelled worker grouping a word list into 16-word chunks. -/
def chunks16F : Nat → List Nat → List (List Nat)
  | _, [] => []
  | 0, ws => [ws]
  | fuel + 1, w :: ws => ((w :: ws).take 16) :: chunks16F fuel ((w :: ws).drop 16)

/-- Group a word list into 16-word chunks. -/
def chunks16 (ws : List Nat) : List (List Nat) := chunks16F ws.length ws

/-- The 16-byte MD5 digest of a byte list. -/
def md5Digest (msg : List Nat) : List Nat :=
  let r := (chunks16 (bytesToWords (md5Pad msg))).foldl md5Chunk
    (0x67452301, 0xefcdab89, 0x98badcfe, 0x10325476)
  toLEBytes r.1 4 ++ toLEBytes r.2.1 4 ++ toLEBytes r.2.2.1 4 ++ toLEBytes r.2.2.2 4

/-- Lowercase hex digit. -/
def hexDigit (n : Nat) : Char := if n < 10 then Char.ofNat (48 + n) else Char.ofNat (87 + n)

/-- Model of `hashlib.md5(s.encode()).hexdigest()`. -/
def md5hex (s : String) : String :=
  ⟨(md5Digest (strBytes s)).flatMap fun b => [hexDigit (b / 16), hexDigit (b % 16)]⟩

/-! ### Data model and the per-entry pipeline -/

/-- A feed entry as consumed by `process_single_entry`: a loosely structured
record with optional fields; the `entry.get(...)` fallbacks are modelled
explicitly at the use sites. -/
structure Entry where
  title : Option String
  link : Option String
  description : Option String
  summary : Option String
  id : Option String
deriving DecidableEq, Repr

/-- The per-entry output dictionary built by `process_single_entry`. -/
structure ProcessedResult where
  index : Nat
  cn_title : String
  link : String
  cn_content : String
  id : String
deriving DecidableEq, Repr

/-- Python `a or b` for an optional string `a` (falsy means absent or empty). -/
def pyOr (a : Option String) (b : String) : String :=
  match a with
  | some s => if s = "" then b else s
  | none => b

/-- Line 44: the md5 hexdigest of the title concatenated with the first 200
characters of the content. -/
def content_hash (title content : String) : String :=
  md5hex (title ++ pyTakeS content 200)

/-- Line 45: the versioned cache key built from the fingerprint. -/
def cacheKey (title content : String) : String :=
  "ai_result_v17_aliyun:" ++ content_hash title content

/-- Lines 47-54: read the cache and accept the value only when it is truthy
and splits on the three-character separator into exactly two parts. -/
def cacheLookup (get : String → Option String) (key : String) :
    Option (String × String) :=
  match get key with
  | none => none
  | some cached =>
    if cached = "" then none
    else
      match pySplitS "|||" cached with
      | [p0, p1] => some (p0, p1)
      | _ => none

/-- Line 102: the composite cached value, title and content joined by the
separator. -/
def composeCached (t c : String) : String := t ++ "|||" ++ c

/-- Updating a key/value store at one key (the visible effect of a Redis
write). -/
def cacheSet (m : String → Option String) (k v : String) : String → Option String :=
  fun k2 => if k2 = k then some v else m k2

/-- The ValueError message raised when the API key is absent (line 79). -/
def keyMissingMsg : String := "ALIYUN_API_KEY 环境变量未设置！"

/-- Lines 78-91: the guarded external call inside the try block; `ak` models
the ALIYUN_API_KEY configuration (falsy values raise) and `svc` the outcome of
this call's request to the external service. -/
def serviceCall (ak : Option String) (svc : Except String String) :
    Except String String :=
  match ak with
  | none => Except.error keyMissingMsg
  | some k => if k = "" then Except.error keyMissingMsg else svc

/-- Lines 107-111: the tuple returned from the except branch — three
components: the title, the error marker, and the error detail followed by the
original content. -/
def degradedTuple (title content e : String) : List String :=
  [title, "⚠️ AI服务异常", "错误详情: " ++ e ++ "<br><br>原始内容:<br>" ++ content]

/-- Lines 92-95: strip the raw response, then delete the code-fence markers
the service may have wrapped around the output. -/
def cleanedResponse (raw : String) : String :=
  pyReplaceS "```" "" (pyReplaceS "```html" "" (pyStripS raw))

/-- `get_ai_processing` (lines 36-111).  `conn` is the process-wide Redis
client (`none` when the startup ping failed), `ak` the API-key configuration,
`svc` the outcome of this call's request to the external service.  The Python
function returns a tuple of strings, modelled as a `List String` because the
two error paths return three components; the second component of the result
collects the `setex` writes (key, ttl, value) the call performs. -/
def get_ai_processing (conn : Option (String → Option String)) (ak : Option String)
    (svc : Except String String) (title content : String) :
    List String × List (String × Nat × String) :=
  match conn with
  | none => ([title, "Redis Error (No Cache)", content], [])
  | some get =>
    let cache_key := cacheKey title content
    match cacheLookup get cache_key with
    | some (t, c) => ([t, c], [])
    | none =>
      match serviceCall ak svc with
      | Except.error e => (degradedTuple title content e, [])
      | Except.ok raw =>
        let parts := pySplitS "|||" (cleanedResponse raw)
        let cn_title :=
          match parts with
          | p0 :: _ => pyStripS p0
          | [] => title
        let cn_content :=
          match parts with
          | _ :: p1 :: _ => pyStripS p1
          | _ => content
        ([cn_title, cn_content],
         [(cache_key, 604800, composeCached cn_title cn_content)])

/-- `process_single_entry` (lines 145-168): field extraction with fallbacks,
the call to `get_ai_processing`, and the two-variable unpacking of its result,
which raises ValueError unless the tuple has exactly two components. -/
def process_single_entry (conn : Option (String → Option String))
    (ak : Option String) (svc : Except String String) (index : Nat) (entry : Entry) :
    Except String (ProcessedResult × List (String × Nat × String)) :=
  let title := entry.title.getD "无标题"
  let link := entry.link.getD ""
  let raw_content := pyOr entry.description (pyOr entry.summary "")
  let res := get_ai_processing conn ak svc title raw_content
  match res.1 with
  | [cn_title, cn_content] =>
    Except.ok (⟨index, cn_title, link, cn_content, entry.id.getD link⟩, res.2)
  | _ => Except.error "ValueError: cannot unpack into 2 values"

/-- Line 207 and 213: one task per input entry, carrying the index assigned at
dispatch time; `svc i` is the service outcome seen by task `i`. -/
def dispatchOutcomes (conn : Option (String → Option String)) (ak : Option String)
    (svc : Nat → Except String String) (entries : List Entry) :
    List (Except String ProcessedResult) :=
  entries.enum.map fun p => (process_single_entry conn ak (svc p.1) p.1 p.2).map Prod.fst

/-- Lines 217-221: what one iteration of the completion loop contributes — a
task that raised is caught and dropped, a task that returned yields its
result. -/
def takeOk (o : Option (Except String ProcessedResult)) : Option ProcessedResult :=
  match o with
  | some (Except.ok r) => some r
  | _ => none

/-- Lines 216-221: the `as_completed` loop — `perm` is the completion order of
task indices; the collection holds the successful results in completion
order. -/
def collectCompleted (outs : List (Except String ProcessedResult))
    (perm : List Nat) : List ProcessedResult :=
  perm.filterMap fun i => takeOk outs[i]?

/-- Lines 205-224: the dispatcher core of `proxy_feed` — collect completed
tasks in completion order, then sort by the index assigned at dispatch. -/
def proxy_feed_results (conn : Option (String → Option String)) (ak : Option String)
    (svc : Nat → Except String String) (entries : List Entry) (perm : List Nat) :
    List ProcessedResult :=
  (collectCompleted (dispatchOutcomes conn ak svc entries) perm).mergeSort
    fun a b => Nat.ble a.index b.index

/-- The canonical output: each task's successful result, in input order. -/
def orderedResults (conn : Option (String → Option String)) (ak : Option String)
    (svc : Nat → Except String String) (entries : List Entry) :
    List ProcessedResult :=
  (dispatchOutcomes conn ak svc entries).filterMap Except.toOption

/-- A concrete feed entry used to exercise the pipeline. -/
def sampleEntry : Entry := ⟨some "T", some "L", some "C", none, none⟩

/-! ### Lemmas about the split model -/

theorem isPrefixOf_append_self : ∀ (l t : List Char), l.isPrefixOf (l ++ t) = true
  | [], _ => List.isPrefixOf_nil_left
  | a :: l, t => by
    simp only [List.cons_append, List.isPrefixOf, beq_self_eq_true, Bool.true_and]
    exact isPrefixOf_append_self l t

theorem pySplitF_not_mem (ch : Char) (sep' : List Char) (fuel : Nat) :
    ∀ s : List Char, s.length ≤ fuel → ch ∉ s →
      pySplitF (ch :: sep') fuel s = [s] := by
  induction fuel with
  | zero =>
    intro s hs _
    cases s with
    | nil => rfl
    | cons a t => simp at hs
  | succ f ih =>
    intro s hs h
    cases s with
    | nil => rfl
    | cons a t =>
      have h1 : ch ≠ a := fun e => h (e ▸ List.mem_cons_self a t)
      have h2 : ch ∉ t := fun m => h (List.mem_cons_of_mem a m)
      simp only [pySplitF]
      rw [if_neg, ih t (by simp only [List.length_cons] at hs; omega) h2]
      rintro ⟨-, hpre⟩
      simp only [List.isPrefixOf, Bool.and_eq_true, beq_iff_eq] at hpre
      exact h1 hpre.1

theorem pySplit_not_mem (ch : Char) (sep' s : List Char) (h : ch ∉ s) :
    pySplit (ch :: sep') s = [s] :=
  pySplitF_not_mem ch sep' s.length s (Nat.le_refl _) h

theorem pySplitF_congr (sep : List Char) :
    ∀ (f1 f2 : Nat) (s : List Char), s.length ≤ f1 → s.length ≤ f2 →
      pySplitF sep f1 s = pySplitF sep f2 s := by
  intro f1
  induction f1 with
  | zero =>
    intro f2 s hs1 _
    cases s with
    | nil => cases f2 <;> rfl
    | cons a t => simp at hs1
  | succ f ih =>
    intro f2 s hs1 hs2
    cases s with
    | nil => cases f2 <;> rfl
    | cons a t =>
      cases f2 with
      | zero => simp at hs2
      | succ f2' =>
        have ht1 : t.length ≤ f := by simp only [List.length_cons] at hs1; omega
        have ht2 : t.length ≤ f2' := by simp only [List.length_cons] at hs2; omega
        simp only [pySplitF]
        by_cases hc : sep ≠ [] ∧ sep.isPrefixOf (a :: t)
        · rw [if_pos hc, if_pos hc,
            ih f2' (List.drop (sep.length - 1) t)
              (by simp only [List.length_drop]; omega)
              (by simp only [List.length_drop]; omega)]
        · rw [if_neg hc, if_neg hc, ih f2' t ht1 ht2]

theorem pySplitF_append (ch : Char) (sep' c : List Char) (fuel : Nat) :
    ∀ t : List Char, (t ++ (ch :: sep') ++ c).length ≤ fuel → ch ∉ t →
      pySplitF (ch :: sep') fuel (t ++ (ch :: sep') ++ c)
        = t :: pySplit (ch :: sep') c := by
  induction fuel with
  | zero =>
    intro t hlen _
    exfalso
    simp only [List.length_append, List.length_cons] at hlen
    omega
  | succ f ih =>
    intro t hlen h
    cases t with
    | nil =>
      simp only [List.nil_append, List.cons_append]
      simp only [pySplitF]
      rw [if_pos ⟨List.cons_ne_nil ch sep', by
        simpa only [List.cons_append] using
          isPrefixOf_append_self (ch :: sep') c⟩]
      congr 1
      rw [show (ch :: sep').length - 1 = sep'.length by simp]
      rw [List.drop_left]
      apply pySplitF_congr
      · simp only [List.nil_append, List.length_append, List.length_cons] at hlen
        omega
      · exact Nat.le_refl _
    | cons a t' =>
      have h1 : ch ≠ a := fun e => h (e ▸ List.mem_cons_self a t')
      have h2 : ch ∉ t' := fun m => h (List.mem_cons_of_mem a m)
      simp only [List.cons_append]
      simp only [pySplitF]
      rw [if_neg, ih t'
        (by simp only [List.length_append, List.length_cons] at hlen ⊢; omega) h2]
      rintro ⟨-, hpre⟩
      simp only [List.isPrefixOf, Bool.and_eq_true, beq_iff_eq] at hpre
      exact h1 hpre.1

theorem pySplit_append_of_not_mem (ch : Char) (sep' t c : List Char)
    (ht : ch ∉ t) (hc : ch ∉ c) :
    pySplit (ch :: sep') (t ++ (ch :: sep') ++ c) = [t, c] := by
  unfold pySplit
  rw [pySplitF_append ch sep' c _ t (Nat.le_refl _) ht]
  rw [pySplit_not_mem ch sep' c hc]

theorem pySplitS_compose (t c : String)
    (ht : ('|' : Char) ∉ t.data) (hc : ('|' : Char) ∉ c.data) :
    pySplitS "|||" (composeCached t c) = [t, c] := by
  have hdata : (composeCached t c).data
      = t.data ++ ('|' :: '|' :: '|' :: []) ++ c.data := by
    show (t ++ "|||" ++ c).data = _
    rw [String.data_append, String.data_append]
  show (pySplit ("|||".data) ((composeCached t c).data)).map String.mk = [t, c]
  rw [hdata, show "|||".data = '|' :: '|' :: '|' :: [] from rfl]
  rw [show ('|' :: '|' :: '|' :: [] : List Char) = '|' :: ('|' :: '|' :: []) from rfl]
  rw [pySplit_append_of_not_mem ('|') ('|' :: '|' :: []) t.data c.data ht hc]
  rfl

/-! ### Lemmas about the dispatcher -/

theorem process_single_entry_index (conn : Option (String → Option String))
    (ak : Option String) (svc : Except String String) (i : Nat) (e : Entry)
    (p : ProcessedResult × List (String × Nat × String))
    (h : process_single_entry conn ak svc i e = Except.ok p) : p.1.index = i := by
  unfold process_single_entry at h
  dsimp only at h
  split at h
  · cases h
    rfl
  · cases h

theorem dispatchOutcomes_index (conn : Option (String → Option String))
    (ak : Option String) (svc : Nat → Except String String) (entries : List Entry)
    (i : Nat) (r : ProcessedResult)
    (h : (dispatchOutcomes conn ak svc entries)[i]? = some (Except.ok r)) :
    r.index = i := by
  unfold dispatchOutcomes at h
  rw [List.getElem?_map, List.getElem?_enum] at h
  cases he : entries[i]? with
  | none => rw [he] at h; simp at h
  | some e =>
    rw [he] at h
    simp only [Option.map_some'] at h
    have h2 := Option.some.inj h
    cases hx : process_single_entry conn ak (svc i) i e with
    | error m => rw [hx] at h2; simp [Except.map] at h2
    | ok p =>
      rw [hx] at h2
      simp only [Except.map] at h2
      have h3 := Except.ok.inj h2
      rw [← h3]
      exact process_single_entry_index conn ak (svc i) i e p hx

theorem dispatchOutcomes_length (conn : Option (String → Option String))
    (ak : Option String) (svc : Nat → Except String String) (entries : List Entry) :
    (dispatchOutcomes conn ak svc entries).length = entries.length := by
  simp [dispatchOutcomes]

theorem takeOk_eq_some (o : Option (Except String ProcessedResult))
    (r : ProcessedResult) : takeOk o = some r ↔ o = some (Except.ok r) := by
  cases o with
  | none => simp [takeOk]
  | some x =>
    cases x with
    | ok a => simp [takeOk]
    | error m => simp [takeOk]

theorem collectCompleted_range (outs : List (Except String ProcessedResult)) :
    collectCompleted outs (List.range outs.length)
      = outs.filterMap Except.toOption := by
  induction outs with
  | nil => rfl
  | cons o rest ih =>
    unfold collectCompleted at ih ⊢
    rw [List.length_cons, List.range_succ_eq_map, List.filterMap_cons,
      List.filterMap_map]
    have hfun : ((fun i => takeOk (o :: rest)[i]?) ∘ Nat.succ)
        = fun i => takeOk rest[i]? := by
      funext i
      simp [Function.comp]
    rw [hfun, ih, List.filterMap_cons]
    cases o with
    | ok r => simp [takeOk, Except.toOption, List.getElem?_cons_zero]
    | error m => simp [takeOk, Except.toOption, List.getElem?_cons_zero]

theorem orderedResults_eq_collect (conn : Option (String → Option String))
    (ak : Option String) (svc : Nat → Except String String) (entries : List Entry) :
    orderedResults conn ak svc entries
      = collectCompleted (dispatchOutcomes conn ak svc entries)
          (List.range entries.length) := by
  conv_rhs => rw [show entries.length = (dispatchOutcomes conn ak svc entries).length
    from (dispatchOutcomes_length conn ak svc entries).symm]
  rw [collectCompleted_range]
  rfl

theorem orderedResults_pairwise (conn : Option (String → Option String))
    (ak : Option String) (svc : Nat → Except String String) (entries : List Entry) :
    List.Pairwise (fun a b : ProcessedResult => a.index < b.index)
      (orderedResults conn ak svc entries) := by
  rw [orderedResults_eq_collect]
  unfold collectCompleted
  rw [List.pairwise_filterMap]
  refine (List.pairwise_lt_range entries.length).imp ?_
  intro i j hij r hr r2 hr2
  rw [Option.mem_def, takeOk_eq_some] at hr hr2
  rw [dispatchOutcomes_index conn ak svc entries i r hr,
    dispatchOutcomes_index conn ak svc entries j r2 hr2]
  exact hij

theorem proxy_feed_eq_ordered (conn : Option (String → Option String))
    (ak : Option String) (svc : Nat → Except String String) (entries : List Entry)
    (perm : List Nat) (hperm : perm.Perm (List.range entries.length)) :
    proxy_feed_results conn ak svc entries perm
      = orderedResults conn ak svc entries := by
  unfold proxy_feed_results
  have hcoll : List.Perm (collectCompleted (dispatchOutcomes conn ak svc entries) perm)
      (orderedResults conn ak svc entries) := by
    rw [orderedResults_eq_collect]
    exact hperm.filterMap _
  have hperm2 : List.Perm
      (List.mergeSort (collectCompleted (dispatchOutcomes conn ak svc entries) perm)
        (fun a b => Nat.ble a.index b.index))
      (orderedResults conn ak svc entries) :=
    (List.mergeSort_perm _ _).trans hcoll
  have hsorted := @List.sorted_mergeSort ProcessedResult
    (fun a b => Nat.ble a.index b.index)
    (by intro a b c h1 h2; simp only [Nat.ble_eq] at h1 h2 ⊢; omega)
    (by intro a b; simp only [Bool.or_eq_true, Nat.ble_eq]; omega)
    (collectCompleted (dispatchOutcomes conn ak svc entries) perm)
  have hpw := orderedResults_pairwise conn ak svc entries
  have hinj : ∀ a ∈ orderedResults conn ak svc entries,
      ∀ b ∈ orderedResults conn ak svc entries, a ≠ b → a.index ≠ b.index := by
    have hp2 : (orderedResults conn ak svc entries).Pairwise
        (fun a b : ProcessedResult => a.index ≠ b.index) :=
      hpw.imp (fun h => Nat.ne_of_lt h)
    have hsymm : Symmetric (fun a b : ProcessedResult => a.index ≠ b.index) :=
      fun x y h e => h e.symm
    intro a ha b hb hne
    exact List.Pairwise.forall hsymm hp2 ha hb hne
  haveI : IsAntisymm ProcessedResult
      (fun a b => a.index < b.index ∨ a = b) := ⟨by
    rintro a b (h1 | h1) (h2 | h2)
    · exact absurd h2 (Nat.lt_asymm h1)
    · exact h2.symm
    · exact h1
    · exact h1⟩
  refine @List.eq_of_perm_of_sorted ProcessedResult
    (fun a b => a.index < b.index ∨ a = b) _ _ _ hperm2 ?_ ?_
  · refine List.Pairwise.imp_of_mem ?_ hsorted
    intro a b ha hb hab
    by_cases heq : a = b
    · exact Or.inr heq
    · refine Or.inl ?_
      have h2 := hinj a (hperm2.mem_iff.1 ha) b (hperm2.mem_iff.1 hb) heq
      simp only [Nat.ble_eq] at hab
      omega
  · exact hpw.imp (fun h => Or.inl h)

theorem orderedResults_length_le (conn : Option (String → Option String))
    (ak : Option String) (svc : Nat → Except String String) (entries : List Entry) :
    (orderedResults conn ak svc entries).length ≤ entries.length := by
  unfold orderedResults
  calc ((dispatchOutcomes conn ak svc entries).filterMap Except.toOption).length
      ≤ (dispatchOutcomes conn ak svc entries).length :=
        List.length_filterMap_le _ _
    _ = entries.length := dispatchOutcomes_length conn ak svc entries

theorem mem_orderedResults (conn : Option (String → Option String))
    (ak : Option String) (svc : Nat → Except String String) (entries : List Entry)
    (i : Nat) (r : ProcessedResult)
    (h : (dispatchOutcomes conn ak svc entries)[i]? = some (Except.ok r)) :
    r ∈ orderedResults conn ak svc entries := by
  unfold orderedResults
  rw [List.mem_filterMap]
  have hmem : Except.ok r ∈ dispatchOutcomes conn ak svc entries := by
    rw [List.mem_iff_getElem?]
    exact ⟨i, h⟩
  exact ⟨Except.ok r, hmem, rfl⟩

theorem orderedResults_mem_exists (conn : Option (String → Option String))
    (ak : Option String) (svc : Nat → Except String String) (entries : List Entry)
    (r : ProcessedResult) (h : r ∈ orderedResults conn ak svc entries) :
    ∃ i : Nat, (dispatchOutcomes conn ak svc entries)[i]?
      = some (Except.ok r : Except String ProcessedResult) := by
  unfold orderedResults at h
  rw [List.mem_filterMap] at h
  obtain ⟨o, ho, hto⟩ := h
  cases o with
  | error m => simp [Except.toOption] at hto
  | ok a =>
    simp only [Except.toOption] at hto
    obtain rfl : a = r := Option.some.inj hto
    exact List.getElem?_of_mem ho

theorem filterMap_toOption_all_ok (l : List (Except String ProcessedResult))
    (h : ∀ i, i < l.length → ∃ r, l[i]? = some (Except.ok r)) :
    (l.filterMap Except.toOption).length = l.length := by
  induction l with
  | nil => rfl
  | cons o rest ih =>
    obtain ⟨r, hr⟩ := h 0 (by simp)
    rw [List.getElem?_cons_zero] at hr
    obtain rfl : o = Except.ok r := Option.some.inj hr
    rw [List.filterMap_cons]
    simp only [Except.toOption]
    rw [List.length_cons, List.length_cons]
    congr 1
    apply ih
    intro i hi
    obtain ⟨r2, hr2⟩ := h (i + 1) (by simp only [List.length_cons]; omega)
    rw [List.getElem?_cons_succ] at hr2
    exact ⟨r2, hr2⟩

theorem filterMap_toOption_one_error :
    ∀ (l : List (Except String ProcessedResult)) (j : Nat) (msg : String),
      l[j]? = some (Except.error msg) →
      (∀ i, i < l.length → i ≠ j → ∃ r, l[i]? = some (Except.ok r)) →
      (l.filterMap Except.toOption).length + 1 = l.length := by
  intro l
  induction l with
  | nil => intro j msg hj _; simp at hj
  | cons o rest ih =>
    intro j msg hj hother
    cases j with
    | zero =>
      rw [List.getElem?_cons_zero] at hj
      obtain rfl : o = Except.error msg := Option.some.inj hj
      rw [List.filterMap_cons]
      simp only [Except.toOption, List.length_cons]
      congr 1
      apply filterMap_toOption_all_ok
      intro i hi
      obtain ⟨r, hr⟩ := hother (i + 1) (by simp only [List.length_cons]; omega)
        (by omega)
      rw [List.getElem?_cons_succ] at hr
      exact ⟨r, hr⟩
    | succ j2 =>
      rw [List.getElem?_cons_succ] at hj
      obtain ⟨r0, hr0⟩ := hother 0 (by simp) (by omega)
      rw [List.getElem?_cons_zero] at hr0
      obtain rfl : o = Except.ok r0 := Option.some.inj hr0
      rw [List.filterMap_cons]
      simp only [Except.toOption, List.length_cons]
      have harg : ∀ i, i < rest.length → i ≠ j2 →
          ∃ r, rest[i]? = some (Except.ok r) := by
        intro i hi hne
        obtain ⟨r, hr⟩ := hother (i + 1) (by simp only [List.length_cons]; omega)
          (by omega)
        rw [List.getElem?_cons_succ] at hr
        exact ⟨r, hr⟩
      have hr := ih j2 msg hj harg
      omega

/-! ### Claim theorems -/

/-- C1: the claim says a failing service call yields a usable PAIR (original
title, marker + detail + original content) and never raises to the caller.
The code instead returns a THREE-component tuple from the except branch, so
`process_single_entry`'s two-variable unpacking raises ValueError and the
entry's task fails.  This theorem evaluates the code on a failing input: for
every error `e` the returned tuple has three components, and the per-entry
processor turns it into an unpacking error instead of a result. -/
theorem c1_error_path_returns_triple :
    (∀ e : String,
      get_ai_processing (some fun _ => none) (some "key") (Except.error e) "T" "C"
        = (degradedTuple "T" "C" e, [])
      ∧ (degradedTuple "T" "C" e).length = 3) ∧
    process_single_entry (some fun _ => none) (some "key") (Except.error "boom")
        0 sampleEntry
      = Except.error "ValueError: cannot unpack into 2 values" := by
  refine ⟨fun e => ⟨rfl, rfl⟩, rfl⟩

/-- C2: the claim says the degraded cache mode (store unreachable at startup)
still performs the transformation and returns a usable two-part result.  The
code instead returns early with the three-component tuple
`(title, "Redis Error (No Cache)", content)` — independent of the service
outcome, so the transformation is never attempted — and the caller's
two-variable unpacking then raises, failing the task. -/
theorem c2_degraded_cache_fails_task :
    (∀ (ak : Option String) (svc : Except String String),
      get_ai_processing none ak svc "T" "C"
        = (["T", "Redis Error (No Cache)", "C"], [])) ∧
    (∀ (ak : Option String) (svc : Except String String),
      process_single_entry none ak svc 0 sampleEntry
        = Except.error "ValueError: cannot unpack into 2 values") := by
  exact ⟨fun _ _ => rfl, fun _ _ => rfl⟩

/-- C3 counterexample: on a delimiter-free response "hello" (cache miss, input
title "T" and content "C") the code returns title "hello" and content "C",
not title "T" and content "hello" as the claim states. -/
theorem c3_no_delimiter_counterexample :
    (get_ai_processing (some fun _ => none) (some "key") (Except.ok "hello")
        "T" "C").1 = ["hello", "C"]
    ∧ ("hello" : String) ≠ "T" ∧ ("C" : String) ≠ "hello" := by
  refine ⟨rfl, by decide, by decide⟩

/-- C3 amended: on a successful call with a cache miss, if the cleaned
response splits into a single segment (no delimiter), the returned title is
that full segment trimmed and the returned content is the ORIGINAL INPUT
content; if the delimiter occurs, the first two segments are trimmed and
returned. -/
theorem c3_output_shape_fallback (get : String → Option String)
    (k raw t c : String)
    (hmiss : cacheLookup get (cacheKey t c) = none) (hk : k ≠ "") :
    (∀ p : String, pySplitS "|||" (cleanedResponse raw) = [p] →
      (get_ai_processing (some get) (some k) (Except.ok raw) t c).1
        = [pyStripS p, c]) ∧
    (∀ (p0 p1 : String) (rest : List String),
      pySplitS "|||" (cleanedResponse raw) = p0 :: p1 :: rest →
      (get_ai_processing (some get) (some k) (Except.ok raw) t c).1
        = [pyStripS p0, pyStripS p1]) := by
  constructor
  · intro p hp
    unfold get_ai_processing
    dsimp only
    rw [hmiss]
    simp only [serviceCall, if_neg hk]
    rw [hp]
  · intro p0 p1 rest hp
    unfold get_ai_processing
    dsimp only
    rw [hmiss]
    simp only [serviceCall, if_neg hk]
    rw [hp]

theorem c3_output_shape_fallback_witness :
    cacheLookup (fun _ => none) (cacheKey "T" "C") = none ∧
    ("key" : String) ≠ "" ∧
    pySplitS "|||" (cleanedResponse " hello ") = ["hello"] ∧
    (get_ai_processing (some fun _ => none) (some "key") (Except.ok " hello ")
        "T" "C").1 = ["hello", "C"] := by
  refine ⟨rfl, by decide, by decide, ?_⟩
  have h := (c3_output_shape_fallback (fun _ => none) "key" " hello " "T" "C"
    rfl (by decide)).1 "hello" (by decide)
  rw [h]
  rfl

/-- C4: for every completion order (any permutation of the task indices) the
dispatcher's output equals the canonical input-ordered list of successful
results: length at most the input length, ordered by the index assigned at
dispatch time. -/
theorem c4_order_preserved (conn : Option (String → Option String))
    (ak : Option String) (svc : Nat → Except String String)
    (entries : List Entry) (perm : List Nat)
    (hperm : perm.Perm (List.range entries.length)) :
    proxy_feed_results conn ak svc entries perm
      = orderedResults conn ak svc entries ∧
    (proxy_feed_results conn ak svc entries perm).length ≤ entries.length ∧
    List.Pairwise (fun a b : ProcessedResult => a.index < b.index)
      (proxy_feed_results conn ak svc entries perm) := by
  have heq := proxy_feed_eq_ordered conn ak svc entries perm hperm
  refine ⟨heq, ?_, ?_⟩
  · rw [heq]
    exact orderedResults_length_le conn ak svc entries
  · rw [heq]
    exact orderedResults_pairwise conn ak svc entries

theorem c4_order_preserved_witness :
    ([1, 0] : List Nat).Perm (List.range 2) ∧
    proxy_feed_results (some fun _ => none) (some "key")
        (fun _ => Except.ok "X|||Y") [sampleEntry, sampleEntry] [1, 0]
      = orderedResults (some fun _ => none) (some "key")
          (fun _ => Except.ok "X|||Y") [sampleEntry, sampleEntry] := by
  have hp : ([1, 0] : List Nat).Perm (List.range 2) := by decide
  exact ⟨hp, (c4_order_preserved (some fun _ => none) (some "key")
    (fun _ => Except.ok "X|||Y") [sampleEntry, sampleEntry] [1, 0] hp).1⟩

/-- C5: if the task at index `j` raises (its outcome is an error) and every
other task returns, then the batch still returns the canonical input-ordered
result list: no output carries index `j`, every other task's result is
present, and exactly one entry is missing from the output.  No exception
escapes the dispatcher — its result is the ordered list itself. -/
theorem c5_failure_isolation (conn : Option (String → Option String))
    (ak : Option String) (svc : Nat → Except String String)
    (entries : List Entry) (perm : List Nat) (j : Nat) (msg : String)
    (hperm : perm.Perm (List.range entries.length))
    (hj : (dispatchOutcomes conn ak svc entries)[j]?
      = some (Except.error msg : Except String ProcessedResult))
    (hother : ∀ i, i < entries.length → i ≠ j →
      ∃ r : ProcessedResult,
        (dispatchOutcomes conn ak svc entries)[i]? = some (Except.ok r)) :
    proxy_feed_results conn ak svc entries perm
      = orderedResults conn ak svc entries ∧
    (∀ r ∈ proxy_feed_results conn ak svc entries perm, r.index ≠ j) ∧
    (∀ (i : Nat) (r : ProcessedResult),
      (dispatchOutcomes conn ak svc entries)[i]? = some (Except.ok r) →
      r ∈ proxy_feed_results conn ak svc entries perm) ∧
    (proxy_feed_results conn ak svc entries perm).length + 1
      = entries.length := by
  have heq := proxy_feed_eq_ordered conn ak svc entries perm hperm
  refine ⟨heq, ?_, ?_, ?_⟩
  · intro r hr
    rw [heq] at hr
    obtain ⟨i, hi⟩ := orderedResults_mem_exists conn ak svc entries r hr
    have hidx := dispatchOutcomes_index conn ak svc entries i r hi
    intro hcontra
    rw [hidx] at hcontra
    subst hcontra
    rw [hj] at hi
    simp at hi
  · intro i r hi
    rw [heq]
    exact mem_orderedResults conn ak svc entries i r hi
  · rw [heq]
    unfold orderedResults
    have hlen := dispatchOutcomes_length conn ak svc entries
    rw [← hlen]
    apply filterMap_toOption_one_error _ j msg hj
    intro i hilt hne
    exact hother i (by omega) hne

theorem c5_failure_isolation_witness :
    (dispatchOutcomes (some fun _ => none) (some "key")
        (fun i => if i = 1 then Except.error "boom" else Except.ok "X|||Y")
        [sampleEntry, sampleEntry])[1]?
      = some (Except.error "ValueError: cannot unpack into 2 values"
          : Except String ProcessedResult) ∧
    (∀ r ∈ proxy_feed_results (some fun _ => none) (some "key")
        (fun i => if i = 1 then Except.error "boom" else Except.ok "X|||Y")
        [sampleEntry, sampleEntry] [1, 0], r.index ≠ 1) ∧
    (proxy_feed_results (some fun _ => none) (some "key")
        (fun i => if i = 1 then Except.error "boom" else Except.ok "X|||Y")
        [sampleEntry, sampleEntry] [1, 0]).length + 1 = 2 := by
  have hj : (dispatchOutcomes (some fun _ => none) (some "key")
      (fun i => if i = 1 then Except.error "boom" else Except.ok "X|||Y")
      [sampleEntry, sampleEntry])[1]?
      = some (Except.error "ValueError: cannot unpack into 2 values"
          : Except String ProcessedResult) := rfl
  have hother : ∀ i, i < ([sampleEntry, sampleEntry] : List Entry).length →
      i ≠ 1 → ∃ r : ProcessedResult,
      (dispatchOutcomes (some fun _ => none) (some "key")
        (fun i => if i = 1 then Except.error "boom" else Except.ok "X|||Y")
        [sampleEntry, sampleEntry])[i]? = some (Except.ok r) := by
    intro i hi hne
    have hi2 : i < 2 := by simpa using hi
    interval_cases i
    · exact ⟨⟨0, "X", "L", "Y", "L"⟩, rfl⟩
    · omega
  have h := c5_failure_isolation (some fun _ => none) (some "key")
    (fun i => if i = 1 then Except.error "boom" else Except.ok "X|||Y")
    [sampleEntry, sampleEntry] [1, 0] 1
    "ValueError: cannot unpack into 2 values" (by decide) hj hother
  exact ⟨hj, h.2.1, h.2.2.2⟩

/-- C6: a cached value under the entry's key that splits into exactly two
segments is returned directly as (title, content); the result does not depend
on the service outcome or the API key (service not invoked) and no cache
write occurs. -/
theorem c6_cache_hit_bypasses_service (get : String → Option String)
    (ak : Option String) (svc : Except String String) (t c v p0 p1 : String)
    (hv : get (cacheKey t c) = some v)
    (hsplit : pySplitS "|||" v = [p0, p1]) :
    get_ai_processing (some get) ak svc t c = ([p0, p1], []) := by
  have hne : v ≠ "" := by
    intro h
    subst h
    rw [show pySplitS "|||" "" = [""] from rfl] at hsplit
    simp at hsplit
  have hlook : cacheLookup get (cacheKey t c) = some (p0, p1) := by
    unfold cacheLookup
    rw [hv]
    dsimp only
    rw [if_neg hne, hsplit]
  unfold get_ai_processing
  dsimp only
  rw [hlook]

theorem c6_cache_hit_bypasses_service_witness :
    (fun _ : String => some "A|||B") (cacheKey "T" "C") = some "A|||B" ∧
    pySplitS "|||" "A|||B" = ["A", "B"] ∧
    get_ai_processing (some fun _ => some "A|||B") none (Except.error "down")
        "T" "C" = (["A", "B"], []) := by
  refine ⟨rfl, by decide, ?_⟩
  exact c6_cache_hit_bypasses_service (fun _ => some "A|||B") none
    (Except.error "down") "T" "C" "A|||B" "A" "B" rfl (by decide)

/-- C7: a cached value whose split does not have exactly two segments is
treated exactly like a cache miss — the call behaves identically to one made
against an empty cache, proceeding to the transform step, and nothing is
raised. -/
theorem c7_malformed_cache_is_miss (get : String → Option String)
    (ak : Option String) (svc : Except String String) (t c v : String)
    (hv : get (cacheKey t c) = some v)
    (hm : (pySplitS "|||" v).length ≠ 2) :
    get_ai_processing (some get) ak svc t c
      = get_ai_processing (some fun _ => none) ak svc t c := by
  have hlook : cacheLookup get (cacheKey t c) = none := by
    unfold cacheLookup
    rw [hv]
    dsimp only
    by_cases he : v = ""
    · rw [if_pos he]
    · rw [if_neg he]
      cases hs : pySplitS "|||" v with
      | nil => rfl
      | cons a l =>
        cases l with
        | nil => rfl
        | cons b l2 =>
          cases l2 with
          | nil => exact absurd (by rw [hs]; rfl) hm
          | cons d l3 => rfl
  unfold get_ai_processing
  dsimp only
  rw [hlook, show cacheLookup (fun _ => none) (cacheKey t c) = none from rfl]

theorem c7_malformed_cache_is_miss_witness :
    (fun _ : String => some "a|||b|||c") (cacheKey "T" "C") = some "a|||b|||c" ∧
    (pySplitS "|||" "a|||b|||c").length ≠ 2 ∧
    get_ai_processing (some fun _ => some "a|||b|||c") (some "key")
        (Except.ok "X|||Y") "T" "C"
      = get_ai_processing (some fun _ => none) (some "key")
          (Except.ok "X|||Y") "T" "C" := by
  refine ⟨rfl, by decide, ?_⟩
  exact c7_malformed_cache_is_miss (fun _ => some "a|||b|||c") (some "key")
    (Except.ok "X|||Y") "T" "C" "a|||b|||c" rfl (by decide)

/-- The success condition of a transform attempt in `get_ai_processing`: a
live cache connection, no usable cached value under the entry's key, a truthy
API key, and a service call that returned a response. -/
def transformSucceedsB (conn : Option (String → Option String))
    (ak : Option String) (svc : Except String String) (t c : String) : Bool :=
  match conn, ak, svc with
  | some get, some k, Except.ok _ =>
    (k != "") && (cacheLookup get (cacheKey t c)).isNone
  | _, _, _ => false

/-- C8: the cache write happens exactly on a successful (non-degraded)
transform: in that case the returned pair (u, v) is stored as the composite
`u ++ sep ++ v` under the entry's cache key with ttl 604800 seconds; in every
other case (cache hit, degraded cache, missing key, service error) no write
is performed, so a failed transform leaves nothing cached and is re-attempted
on the next request. -/
theorem c8_cache_write_policy (conn : Option (String → Option String))
    (ak : Option String) (svc : Except String String) (t c : String) :
    if transformSucceedsB conn ak svc t c then
      ∃ u v, get_ai_processing conn ak svc t c
        = ([u, v], [(cacheKey t c, 604800, composeCached u v)])
    else (get_ai_processing conn ak svc t c).2 = [] := by
  cases conn with
  | none => simp [transformSucceedsB, get_ai_processing]
  | some get =>
    cases hlook : cacheLookup get (cacheKey t c) with
    | some pr =>
      obtain ⟨t2, c2⟩ := pr
      cases ak with
      | none => simp [transformSucceedsB, get_ai_processing, hlook]
      | some k =>
        cases svc with
        | error e => simp [transformSucceedsB, get_ai_processing, hlook]
        | ok raw => simp [transformSucceedsB, get_ai_processing, hlook]
    | none =>
      cases ak with
      | none => simp [transformSucceedsB, get_ai_processing, hlook, serviceCall]
      | some k =>
        by_cases hk : k = ""
        · subst hk
          cases svc with
          | error e =>
            simp [transformSucceedsB, get_ai_processing, hlook, serviceCall]
          | ok raw =>
            simp [transformSucceedsB, get_ai_processing, hlook, serviceCall]
        · cases svc with
          | error e =>
            simp [transformSucceedsB, get_ai_processing, hlook, serviceCall, hk]
          | ok raw =>
            have hb : transformSucceedsB (some get) (some k) (Except.ok raw) t c
                = true := by
              simp [transformSucceedsB, hlook, hk]
            rw [if_pos hb]
            unfold get_ai_processing
            dsimp only
            rw [hlook]
            simp only [serviceCall, if_neg hk]
            exact ⟨_, _, rfl⟩

/-- C9 counterexample: with a title that itself contains the separator, the
round-trip set-then-get does not return the pair unchanged — the composite
splits into three segments and the lookup reports a miss. -/
theorem c9_roundtrip_counterexample :
    cacheLookup (cacheSet (fun _ => none) "k" (composeCached "a|||b" "c")) "k"
      ≠ some ("a|||b", "c") := by decide

/-- C9 amended: writing the composite of (t, c) and reading the same key back
returns (t, c) unchanged whenever the separator-forming character does not
occur in either component (composites whose parts contain the separator or
straddle it can split wrongly, as the counterexample shows). -/
theorem c9_cache_roundtrip (m : String → Option String) (k t c : String)
    (ht : ('|' : Char) ∉ t.data) (hc : ('|' : Char) ∉ c.data) :
    cacheLookup (cacheSet m k (composeCached t c)) k = some (t, c) := by
  have hne : composeCached t c ≠ "" := by
    intro h
    have h2 : (composeCached t c).data = [] := by rw [h]
    rw [show (composeCached t c).data
        = t.data ++ ('|' :: '|' :: '|' :: []) ++ c.data from by
      show (t ++ "|||" ++ c).data = _
      rw [String.data_append, String.data_append]] at h2
    simp at h2
  unfold cacheLookup cacheSet
  rw [if_pos rfl]
  dsimp only
  rw [if_neg hne, pySplitS_compose t c ht hc]

theorem c9_cache_roundtrip_witness :
    (('|' : Char) ∉ ("A" : String).data) ∧
    (('|' : Char) ∉ ("B" : String).data) ∧
    cacheLookup (cacheSet (fun _ => none) "key" (composeCached "A" "B")) "key"
      = some ("A", "B") := by
  refine ⟨by decide, by decide, ?_⟩
  exact c9_cache_roundtrip (fun _ => none) "key" "A" "B" (by decide) (by decide)

/-- C10 counterexample: distinct (title, content) inputs can yield the SAME
fingerprint with certainty, not merely with negligible probability: shifting
the title/content boundary leaves the hashed concatenation equal, so the
md5-based fingerprint is identical. -/
theorem c10_fingerprint_counterexample :
    content_hash "ab" "c" = content_hash "a" "bc" ∧
    (("ab", "c") : String × String) ≠ ("a", "bc") := by
  constructor
  · show md5hex ("ab" ++ pyTakeS "c" 200) = md5hex ("a" ++ pyTakeS "bc" 200)
    rw [show ("ab" ++ pyTakeS "c" 200 : String) = "a" ++ pyTakeS "bc" 200
      from by decide]
  · decide

/-- C10 amended: the fingerprint is a deterministic function of the title
concatenated with the first 200 characters of the content — any two inputs
with equal concatenation (equal titles and contents agreeing on the first 200
characters, but also boundary-shifted pairs) always receive the identical
fingerprint; inequality of fingerprints for differing concatenations is only
a probabilistic md5 property, not a guarantee. -/
theorem c10_fingerprint_deterministic (t c u d : String)
    (h : t ++ pyTakeS c 200 = u ++ pyTakeS d 200) :
    content_hash t c = content_hash u d := by
  unfold content_hash
  rw [h]

theorem c10_fingerprint_deterministic_witness :
    ("t" ++ pyTakeS "x" 200 : String) = "t" ++ pyTakeS "x" 200 ∧
    content_hash "t" "x" = content_hash "t" "x" := by
  exact ⟨rfl, c10_fingerprint_deterministic "t" "x" "t" "x" rfl⟩
